import Mathlib

/-!
Shallow embedding of the telegram-steam-party-bot core (src/bot.py):
the cachedasync TTL-cache wrapper, get_owned_games, generate_report,
the /party session command loop (join, games, stop), truncate_msg and
convert_to_int.  Python dicts are modelled as association lists kept in
insertion order, Python sets as duplicate-free lists, machine-independent
Python integers as Int/Nat, and raising code as Except.
-/

namespace SteamPartyBot

/-! ## Data model

A steam game as it appears in the GetOwnedGames payload: bot.py reads
game["appid"] and game["name"] (bot.py lines 173-175). -/

structure Game where
  appid : Nat
  name : String
deriving DecidableEq

/-- The owned-games payload resp.get("response"): generate_report reads
game_info.get("games", []) from it (bot.py line 173). -/
structure GameInfo where
  games : List Game
deriving DecidableEq

/-- PARTY_TIMEOUT from bot.py line 52. -/
def PARTY_TIMEOUT : Nat := 600

/-- A /party session: the party_members set (modelled as a duplicate-free
list) and the absolute deadline of the conversation timeout. -/
structure Session where
  members : List Nat
  deadline : Nat
deriving DecidableEq

/-! ## Session start (bot.py lines 215-218 and 310-311)

The party handler opens bot.conversation(chat); telethon raises
AlreadyInConversationError when the chat already holds a conversation, and
the handler catches it and replies "This chat already has an running
party!" without touching the running conversation.  The chat-level state is
the optional live Session. -/

inductive StartReply where
  | announce
  | alreadyRunning
deriving DecidableEq

/-- Processing of one /party command against the chat state: with a live
session the handler lands in the AlreadyInConversationError branch
(bot.py lines 310-311) and the live session is untouched; otherwise a fresh
conversation starts with an empty member set (bot.py line 227) and the
conversation timeout (bot.py line 218). -/
def party_start (now : Nat) (active : Option Session) : Option Session × StartReply :=
  match active with
  | some s => (some s, StartReply.alreadyRunning)
  | none => (some { members := [], deadline := now + PARTY_TIMEOUT }, StartReply.announce)

/-! ## The /join command (bot.py lines 232-241) -/

/-- Outcome of handling one command inside the conversation loop: either the
loop continues with the new member set, or the handler returns and the
session is over (the finally block edits "Party is no longer active."). -/
inductive HandleResult where
  | cont (members : List Nat) (reply : String)
  | ended (reply : String)
deriving DecidableEq

/-- Reply sent by the join branch to an unregistered sender (bot.py
lines 237-238). -/
def MUST_REGISTER_MSG : String :=
  "You have not registered!\nUse /register to register and /unregister to unregister."

/-- The /join branch of the conversation loop, bot.py lines 232-241: a
sender already in party_members gets the "already" notice and nothing
changes; a sender with no db entry (db is the shelve mapping
str(sender_id) to steam id, modelled keyed by the numeric id) gets the
must-register reply and the handler returns, ending the session; otherwise
the sender is added to party_members. -/
def handle_join (db : Nat → Option String) (sender : Nat) (members : List Nat) : HandleResult :=
  if sender ∈ members then HandleResult.cont members "You are already in the party!"
  else if db sender = none then HandleResult.ended MUST_REGISTER_MSG
  else HandleResult.cont (members ++ [sender]) "You are in the party now!"

/-! ## convert_to_int (bot.py lines 334-338)

Python int(s) first transforms the string as CPython does before its ASCII
integer parser runs: a character below 127 is kept as it is, a Unicode
whitespace character at or above 127 becomes an ASCII space, a Unicode
decimal digit (category Nd) becomes the ASCII digit of the same value, and
any other character at or above 127 becomes a question mark, which the
parser then rejects.  The ASCII parser strips the characters 9 to 13 and 32
from both ends, reads an optional sign and a nonempty digit run with
optional single underscores between digits, and raises ValueError on
anything else; the bot falls back to 0 on ValueError. -/

/-- First code points of the 66 runs of ten consecutive Unicode decimal
digits (category Nd, digit values 0 to 9 in order): what CPython maps to
ASCII digits before parsing an int. -/
def nd_digit_starts : List Nat :=
  [0x30, 0x660, 0x6f0, 0x7c0, 0x966, 0x9e6, 0xa66, 0xae6, 0xb66, 0xbe6,
    0xc66, 0xce6, 0xd66, 0xde6, 0xe50, 0xed0, 0xf20, 0x1040, 0x1090, 0x17e0,
    0x1810, 0x1946, 0x19d0, 0x1a80, 0x1a90, 0x1b50, 0x1bb0, 0x1c40, 0x1c50, 0xa620,
    0xa8d0, 0xa900, 0xa9d0, 0xa9f0, 0xaa50, 0xabf0, 0xff10, 0x104a0, 0x10d30, 0x11066,
    0x110f0, 0x11136, 0x111d0, 0x112f0, 0x11450, 0x114d0, 0x11650, 0x116c0, 0x11730, 0x118e0,
    0x11950, 0x11c50, 0x11d50, 0x11da0, 0x16a60, 0x16ac0, 0x16b50, 0x1d7ce, 0x1d7d8, 0x1d7e2,
    0x1d7ec, 0x1d7f6, 0x1e140, 0x1e2f0, 0x1e950, 0x1fbf0]

/-- Value of a code point within the runs of decimal digits, if any. -/
def decimal_lookup (n : Nat) : List Nat → Option Nat
  | [] => none
  | s :: rest => if s ≤ n ∧ n < s + 10 then some (n - s) else decimal_lookup n rest

/-- Py_UNICODE_TODECIMAL: the decimal value of a Unicode decimal digit. -/
def pyDecimal? (c : Char) : Option Nat := decimal_lookup c.toNat nd_digit_starts

/-- Py_UNICODE_ISSPACE above ASCII: the Unicode whitespace code points at
or above 127 that CPython turns into an ASCII space before parsing. -/
def py_unicode_space (n : Nat) : Bool :=
  n == 0x85 || n == 0xa0 || n == 0x1680 ||
    (Nat.ble 0x2000 n && Nat.ble n 0x200a) ||
    n == 0x2028 || n == 0x2029 || n == 0x202f || n == 0x205f || n == 0x3000

/-- The per-character transform CPython applies to the string before its
ASCII int parser: characters below 127 unchanged, Unicode whitespace to a
space, Unicode decimal digits to ASCII digits, everything else to a
question mark. -/
def py_transform_char (c : Char) : Char :=
  if c.toNat < 127 then c
  else if py_unicode_space c.toNat then Char.ofNat 32
  else
    match pyDecimal? c with
    | some d => Char.ofNat (48 + d)
    | none => Char.ofNat 63

/-- Py_ISSPACE: the ASCII whitespace the int parser strips from both
ends (code points 9 to 13 and 32). -/
def py_ascii_space (c : Char) : Bool :=
  c.toNat == 32 || (Nat.ble 9 c.toNat && Nat.ble c.toNat 13)

/-- Numeric value of a decimal digit character. -/
def pyDigitVal (c : Char) : Nat := c.toNat - Char.toNat (Char.ofNat 48)

/-- Continuation of the digit-run parser: after at least one digit, accept
further digits, each optionally preceded by a single underscore. -/
def pyDigitsGo (acc : Nat) : List Char → Option Nat
  | [] => some acc
  | c :: rest =>
    if c = Char.ofNat 95 then
      match rest with
      | [] => none
      | c2 :: rest2 =>
        if c2.isDigit then pyDigitsGo (acc * 10 + pyDigitVal c2) rest2 else none
    else if c.isDigit then pyDigitsGo (acc * 10 + pyDigitVal c) rest else none

/-- Parse a nonempty underscore-separated digit run, as Python int does
after the sign. -/
def pyDigits : List Char → Option Nat
  | [] => none
  | c :: rest => if c.isDigit then pyDigitsGo (pyDigitVal c) rest else none

/-- Model of Python int(s): apply the CPython character transform, strip
ASCII whitespace from both ends, read an optional ASCII sign, then a digit
run; none models ValueError. -/
def pyInt? (s : String) : Option Int :=
  let ts := s.data.map py_transform_char
  let cs := ((ts.dropWhile py_ascii_space).reverse.dropWhile py_ascii_space).reverse
  match cs with
  | c :: rest =>
    if c = Char.ofNat 43 then (pyDigits rest).map (fun n => (n : Int))
    else if c = Char.ofNat 45 then (pyDigits rest).map (fun n => -(n : Int))
    else (pyDigits cs).map (fun n => (n : Int))
  | [] => none

/-- convert_to_int, bot.py lines 334-338: int(s), with 0 on ValueError. -/
def convert_to_int (s : String) : Int := (pyInt? s).getD 0

/-! ## The games statistics dictionary (generate_report, bot.py 167-186) -/

/-- One value of game_stat_dict: the display name recorded at first sight of
the appid and the owners set, modelled as a duplicate-free list in insertion
order. -/
structure GameStat where
  name : String
  owners : List Nat
deriving DecidableEq

/-- Python set.add on the owners list: append the member unless present. -/
def addOwner (os : List Nat) (m : Nat) : List Nat := if m ∈ os then os else os ++ [m]

/-- One iteration of the inner loop of generate_report (bot.py lines
173-182): if the appid is not yet a key of game_stat_dict a new entry with
the current name and a singleton owners set is inserted, else the member is
added to the existing owners set.  The dict is an association list in key
insertion order. -/
def record_game (member_id : Nat) (g : Game) :
    List (Nat × GameStat) → List (Nat × GameStat)
  | [] => [(g.appid, { name := g.name, owners := [member_id] })]
  | (a, st) :: rest =>
    if g.appid = a then (a, { name := st.name, owners := addOwner st.owners member_id }) :: rest
    else (a, st) :: record_game member_id g rest

/-- The two nested loops of generate_report over zip(party_members,
game_infos) and each games list (bot.py lines 172-182), on pairs of a
member id and its decoded games list. -/
def game_stats (pairs : List (Nat × List Game)) : List (Nat × GameStat) :=
  pairs.foldl (fun d p => p.2.foldl (fun d2 g => record_game p.1 g d2) d) []

/-- Comparison used by sorted(report, key=lambda x: x[2], reverse=True):
x comes no later than y when the owner count of y is at most that of x. -/
def countGE (x y : Nat × GameStat × Nat) : Prop := y.2.2 ≤ x.2.2

instance : DecidableRel countGE := fun x y => inferInstanceAs (Decidable (y.2.2 ≤ x.2.2))

instance : IsTotal (Nat × GameStat × Nat) countGE :=
  ⟨fun x y => (Nat.le_total y.2.2 x.2.2).symm.symm⟩

instance : IsTrans (Nat × GameStat × Nat) countGE :=
  ⟨fun _ _ _ h1 h2 => Nat.le_trans h2 h1⟩

/-- The report of generate_report (bot.py lines 183-186): one tuple
(appid, stat, owner count) per dict entry in insertion order, stably sorted
by owner count descending.  Python sorted is a stable sort keyed on x[2]
with reverse=True; a stable insertion sort under countGE produces the same
list. -/
def report_of (pairs : List (Nat × List Game)) : List (Nat × GameStat × Nat) :=
  List.insertionSort countGE
    ((game_stats pairs).map (fun p => (p.1, p.2, p.2.owners.length)))

/-! ## The /games command branch (bot.py lines 286-301) -/

/-- Tolerance from the argument list reply.text.split()[1:] (bot.py lines
287-291): 0 when absent, else convert_to_int of the first argument. -/
def games_tolerance : List String → Int
  | [] => 0
  | a :: _ => convert_to_int a

/-- Threshold len(party_members) - tolerance (bot.py line 292), in Int since
the tolerance may exceed the member count or be negative. -/
def games_threshold (memberCount : Nat) (tolerance : Int) : Int :=
  (memberCount : Int) - tolerance

/-- The filter of bot.py line 294: keep the report rows r with
r[2] >= threshold. -/
def games_filter (memberCount : Nat) (tolerance : Int) (rep : List (Nat × GameStat × Nat)) :
    List (Nat × GameStat × Nat) :=
  rep.filter (fun r => games_threshold memberCount tolerance ≤ (r.2.2 : Int))

/-- Reply decision of the /games branch. -/
inductive GamesReply where
  | noCommon
  | report (entries : List (Nat × GameStat × Nat))
deriving DecidableEq

/-- The /games branch after the report is generated (bot.py lines 292-301):
filter by the threshold; an empty filtered report is answered with
"No common games found!", otherwise the filtered rows are rendered and
sent. -/
def games_cmd (members : List Nat) (args : List String) (rep : List (Nat × GameStat × Nat)) :
    GamesReply :=
  let filtered := games_filter members.length (games_tolerance args) rep
  if filtered.isEmpty then GamesReply.noCommon else GamesReply.report filtered

/-- Registration db with exactly one registered user, participant 1: used by
concrete witnesses. -/
def regDb1 : Nat → Option String := fun n => if n = 1 then some "76561198000000000" else none

/-! ## The cachedasync wrapper, sequentially (bot.py lines 22-44, 74-81)

One lookup through the wrapper around get_owned_games, for one key within
its TTL: on a hit the cached value is returned without calling the wrapped
coroutine; on a miss the coroutine runs, its result is stored (the ValueError
guard of line 40 never fires for a TTLCache of positive capacity) and
returned; an exception from the coroutine propagates before the store.
get_owned_games itself returns resp.get("response", None) of the raw API
response (line 81), so an API response without a "response" entry becomes
the None marker.  The raw response is modelled as an association list and a
raising API call as Except.error. -/

/-- Python resp.get("response", None) on the raw steam API response. -/
def resp_get_response (resp : List (String × GameInfo)) : Option GameInfo :=
  match resp.find? (fun p => p.1 == "response") with
  | some p => some p.2
  | none => none

/-- The body of get_owned_games without the cache (bot.py lines 74-81): the
API call either raises or yields a raw response, reduced by
resp.get("response", None). -/
def get_owned_games_uncached (apiCall : Except String (List (String × GameInfo))) :
    Except String (Option GameInfo) :=
  match apiCall with
  | Except.error e => Except.error e
  | Except.ok resp => Except.ok (resp_get_response resp)

/-- One sequential pass through the cachedasync wrapper (bot.py lines
31-42) for a single key: given the cache slot for the key and the behaviour
of the wrapped call, it returns (result, new cache slot, whether the
wrapped call ran). -/
def cachedasync_lookup (slot : Option (Option GameInfo))
    (apiCall : Except String (List (String × GameInfo))) :
    Except String (Option GameInfo) × Option (Option GameInfo) × Bool :=
  match slot with
  | some v => (Except.ok v, some v, false)
  | none =>
    match get_owned_games_uncached apiCall with
    | Except.error e => (Except.error e, none, true)
    | Except.ok v => (Except.ok v, some v, true)

/-! ## The cachedasync wrapper under concurrency (bot.py lines 31-42)

The bot runs on one asyncio event loop: code between awaits is atomic, and
the only await between the cache probe and the store is the call
v = await func(...) on line 37.  A caller of the wrapper for a fixed
uncached key therefore has two atomic segments: (probe) lines 32-36, which
on a miss starts the fetch, and (resume) lines 37-42, which stores the
fetch result and returns it.  Two concurrent callers for the same key are
modelled as a small state machine driven by a schedule of caller indices;
fetches are numbered in start order and the nth started fetch returns f n. -/

inductive CallerState where
  | start
  | fetching (j : Nat)
  | done (v : Nat)
deriving DecidableEq

/-- Joint state: the cache slot of the key, the number of fetches started,
and both callers. -/
structure CacheSys where
  cache : Option Nat
  fetchCount : Nat
  c0 : CallerState
  c1 : CallerState
deriving DecidableEq

/-- One atomic segment of one caller: from start, a probe that hits
returns the cached value (line 34) and a probe that misses starts fetch
number fetchCount + 1 (lines 35-37); a fetching caller resumes at line 37,
stores its own result (line 39) and returns it (line 42); a finished caller
does nothing. -/
def caller_step (f : Nat → Nat) (c : CallerState) (cache : Option Nat) (fetchCount : Nat) :
    CallerState × Option Nat × Nat :=
  match c with
  | CallerState.start =>
    match cache with
    | some v => (CallerState.done v, cache, fetchCount)
    | none => (CallerState.fetching (fetchCount + 1), none, fetchCount + 1)
  | CallerState.fetching j => (CallerState.done (f j), some (f j), fetchCount)
  | CallerState.done v => (CallerState.done v, cache, fetchCount)

/-- Run the scheduled caller (0 is caller 0, anything else caller 1) for
one atomic segment. -/
def sys_step (f : Nat → Nat) (s : CacheSys) (i : Nat) : CacheSys :=
  if i = 0 then
    match caller_step f s.c0 s.cache s.fetchCount with
    | (c, cache, n) => { s with c0 := c, cache := cache, fetchCount := n }
  else
    match caller_step f s.c1 s.cache s.fetchCount with
    | (c, cache, n) => { s with c1 := c, cache := cache, fetchCount := n }

/-- Both callers pending on the empty cache: no entry for the key, no fetch
started. -/
def sys_init : CacheSys :=
  { cache := none, fetchCount := 0, c0 := CallerState.start, c1 := CallerState.start }

/-- Run a schedule of atomic segments from the initial state. -/
def sys_run (f : Nat → Nat) (sched : List Nat) : CacheSys :=
  sched.foldl (sys_step f) sys_init

/-- Invariant holding once both callers have probed the empty cache: two
fetches started, caller 0 awaiting or holding the result of fetch 1,
caller 1 awaiting or holding the result of fetch 2. -/
def both_missed (f : Nat → Nat) (s : CacheSys) : Prop :=
  s.fetchCount = 2 ∧
  (s.c0 = CallerState.fetching 1 ∨ s.c0 = CallerState.done (f 1)) ∧
  (s.c1 = CallerState.fetching 2 ∨ s.c1 = CallerState.done (f 2))

/-! ## truncate_msg (bot.py lines 321-331)

The generator accumulates lines into msg, flushing msg whenever the next
line (with its trailing newline) would not keep the accumulated length
strictly below the limit, and raises when a single line with its newline
exceeds the limit.  The generator is modelled as a recursion carrying the
accumulator msg and the list of already flushed messages, returning all
yielded messages or the raised error. -/

/-- Concatenation of a list of strings, left to right. -/
def sjoin : List String → String
  | [] => ""
  | s :: rest => s ++ sjoin rest

/-- The loop of truncate_msg (bot.py lines 323-331) with limit N,
accumulator msg and already yielded messages out. -/
def truncate_go (N : Nat) : List String → String → List String → Except String (List String)
  | [], msg, out => Except.ok (out ++ [msg])
  | line :: rest, msg, out =>
    if N < (line ++ "\n").length then Except.error "Line too large to truncate"
    else if (msg ++ line ++ "\n").length < N then truncate_go N rest (msg ++ line ++ "\n") out
    else truncate_go N rest (line ++ "\n") (out ++ [msg])

/-- truncate_msg (bot.py line 321): the loop started with an empty
accumulator and no yielded message; the callers leave length at its default
4096. -/
def truncate_msg (lines : List String) (N : Nat) : Except String (List String) :=
  truncate_go N lines "" []

/-- A line of exactly 4096 characters. -/
def big_line : String := String.mk (List.replicate 4096 (Char.ofNat 97))

/-! ## generate_report over fetched payloads (bot.py lines 167-186)

generate_report maps each party member through db.get (None for an
unregistered member) and get_owned_games; each resulting game_info is read
with game_info.get("games", []).  When get_owned_games produced the None
marker (steam error or absent payload, bot.py line 81) that attribute
access raises AttributeError and the whole report computation aborts. -/

/-- Python game_info.get("games", []): the games list of a payload, or an
AttributeError on the None marker. -/
def attr_get_games : Option GameInfo → Except String (List Game)
  | none => Except.error "AttributeError: NoneType object has no attribute get"
  | some gi => Except.ok gi.games

/-- The per-member decoding pass of the loop in bot.py lines 172-173 over
zip(party_members, game_infos): the first None payload aborts with the
AttributeError, otherwise every member keeps its games list.  The Python
loop raises while aggregating; since the raise discards all aggregation
done so far, collecting first and aggregating after is observationally the
same. -/
def collect_games : List (Nat × Option GameInfo) → Except String (List (Nat × List Game))
  | [] => Except.ok []
  | (m, oi) :: rest =>
    match attr_get_games oi with
    | Except.error e => Except.error e
    | Except.ok gs =>
      match collect_games rest with
      | Except.error e => Except.error e
      | Except.ok ps => Except.ok ((m, gs) :: ps)

/-- generate_report (bot.py lines 167-186), with the registration db and
the cached steam lookup as parameters: steam_ids = map(db.get, members),
game_infos = gather(get_owned_games over steam_ids), then the aggregation
loops and the sorted report. -/
def generate_report (db : Nat → Option String) (fetch : Option String → Option GameInfo)
    (party_members : List Nat) : Except String (List (Nat × GameStat × Nat)) :=
  match collect_games (party_members.map (fun m => (m, fetch (db m)))) with
  | Except.error e => Except.error e
  | Except.ok pairs => Except.ok (report_of pairs)

/-- A steam lookup that finds an empty games payload for every registered
id and yields the None marker for the unregistered None id, as the real
API does for steamid None. -/
def fetch_strict : Option String → Option GameInfo
  | some _ => some { games := [] }
  | none => none

/-! ## Specification view of the aggregation loops, for the proofs about
generate_report.  The two nested loops of bot.py lines 172-182 traverse the
(member, game) occurrences in member order and games order; flat_pairs is
that traversal order. -/

/-- The (member, game) occurrences of the nested loops, in traversal
order. -/
def flat_pairs : List (Nat × List Game) → List (Nat × Game)
  | [] => []
  | p :: rest => p.2.map (fun g => (p.1, g)) ++ flat_pairs rest

/-- Keys of the stats dictionary in insertion order. -/
def dkeys (d : List (Nat × GameStat)) : List Nat := d.map Prod.fst

/-- Lookup in the stats dictionary (Python game_stat_dict[appid]). -/
def dlookup (a : Nat) : List (Nat × GameStat) → Option GameStat
  | [] => none
  | p :: rest => if p.1 = a then some p.2 else dlookup a rest

/-- First occurrence with the given appid in the traversal. -/
def find_first (a : Nat) : List (Nat × Game) → Option (Nat × Game)
  | [] => none
  | x :: rest => if x.2.appid = a then some x else find_first a rest

/-- Owners accumulated over the traversal for one appid: every occurrence
of the appid adds its member to the set. -/
def owners_go (a : Nat) : List Nat → List (Nat × Game) → List Nat
  | os, [] => os
  | os, x :: rest => owners_go a (if x.2.appid = a then addOwner os x.1 else os) rest

/-- Owners of one appid over the whole traversal. -/
def owners_of (a : Nat) (xs : List (Nat × Game)) : List Nat := owners_go a [] xs

/-- Intended content of the stats dictionary at one appid after a
traversal: absent when no occurrence has the appid, else the name of the
first such occurrence with the accumulated owners. -/
def stat_spec (a : Nat) (xs : List (Nat × Game)) : Option GameStat :=
  match find_first a xs with
  | none => none
  | some x => some { name := x.2.name, owners := owners_of a xs }

/-- The dictionary built by the loops agrees with stat_spec at every appid
and has duplicate-free keys. -/
def stats_inv (xs : List (Nat × Game)) (d : List (Nat × GameStat)) : Prop :=
  (dkeys d).Nodup ∧ ∀ a, dlookup a d = stat_spec a xs

/-- C4: a second /party command for a chat that already holds a live session
lands in the AlreadyInConversationError branch: the caller gets the
distinguishable already-running reply (distinct from the announce reply),
and the live session, its member set and deadline included, is returned
unchanged. -/
theorem c4_second_start_rejected (now : Nat) (s : Session) :
    party_start now (some s) = (some s, StartReply.alreadyRunning) ∧
    StartReply.alreadyRunning ≠ StartReply.announce ∧
    (party_start now (some s)).1 = some { members := s.members, deadline := s.deadline } :=
  ⟨rfl, by decide, rfl⟩

/-- C5: for a sender not already in the member set, /join adds the sender to
party_members exactly when the sender has a registration db entry; with no
entry the reply is the must-register message and the handler returns,
ending the session. -/
theorem c5_join_requires_registration (db : Nat → Option String) (sender : Nat)
    (members : List Nat) (h : sender ∉ members) :
    (db sender ≠ none → handle_join db sender members =
      HandleResult.cont (members ++ [sender]) "You are in the party now!") ∧
    (db sender = none → handle_join db sender members = HandleResult.ended MUST_REGISTER_MSG) := by
  refine ⟨fun hr => ?_, fun hn => ?_⟩ <;> simp [handle_join, h, *]

/-- C5 witness: participant 1 is registered in regDb1 and joins; participant
2 is not and ends the session. -/
theorem c5_join_requires_registration_witness :
    (1 ∉ ([] : List Nat)) ∧
    handle_join regDb1 1 [] = HandleResult.cont [1] "You are in the party now!" ∧
    handle_join regDb1 2 [] = HandleResult.ended MUST_REGISTER_MSG :=
  ⟨by decide, (c5_join_requires_registration regDb1 1 [] (by decide)).1 (by decide),
    (c5_join_requires_registration regDb1 2 [] (by decide)).2 (by decide)⟩

/-- C9: /join by a sender already in the member set leaves party_members
unchanged and replies with the already-in-the-party notice. -/
theorem c9_join_idempotent (db : Nat → Option String) (sender : Nat) (members : List Nat)
    (h : sender ∈ members) :
    handle_join db sender members = HandleResult.cont members "You are already in the party!" := by
  simp [handle_join, h]

/-- C9 witness: a repeated join by registered participant 1. -/
theorem c9_join_idempotent_witness :
    (1 ∈ [1]) ∧
    handle_join regDb1 1 [1] = HandleResult.cont [1] "You are already in the party!" :=
  ⟨by decide, c9_join_idempotent regDb1 1 [1] (by decide)⟩

/-- C10: convert_to_int returns the parsed integer whenever the string
parses as a Python int, negative integers and non-ASCII Unicode decimal
digits and whitespace included, and 0 on any string that does not parse; a
negative tolerance makes the inclusion threshold exceed the member count.
The concrete conjuncts check the Unicode digit and whitespace paths:
the Arabic-Indic digit three parses, also signed and mixed with ASCII
digits and underscores, no-break and thin spaces are stripped, and a
non-numeric argument falls back to 0. -/
theorem c10_convert_to_int_fallback :
    (∀ (s : String) (n : Int), pyInt? s = some n → convert_to_int s = n) ∧
    (∀ s : String, pyInt? s = none → convert_to_int s = 0) ∧
    (∀ (c : Nat) (t : Int), t < 0 → (c : Int) < games_threshold c t) ∧
    convert_to_int "٣" = 3 ∧
    convert_to_int "-٣" = -3 ∧
    convert_to_int "1_٢" = 12 ∧
    convert_to_int "  12 " = 12 ∧
    convert_to_int "abc" = 0 := by
  refine ⟨fun s n h => ?_, fun s h => ?_, fun c t h => ?_, by decide, by decide, by decide,
    by decide, by decide⟩
  · simp [convert_to_int, h]
  · simp [convert_to_int, h]
  · simp only [games_threshold]
    omega

/-- C7: the /games command includes a report row exactly when its owner
count is at least the member count minus the tolerance; the tolerance
defaults to 0 with no argument; with 3 members and tolerance 1 a row owned
by 2 members passes and a row owned by 1 member is dropped; and the reply
is the no-common-games notice exactly when the filtered report is empty. -/
theorem c7_games_tolerance_filter (n : Nat) (t : Int) (rep : List (Nat × GameStat × Nat)) :
    games_tolerance [] = 0 ∧
    (∀ e, e ∈ games_filter n t rep ↔ (e ∈ rep ∧ games_threshold n t ≤ (e.2.2 : Int))) ∧
    games_cmd [1, 2, 3] ["1"] [(10, ⟨"g2", [1, 2]⟩, 2), (11, ⟨"g1", [1]⟩, 1)] =
      GamesReply.report [(10, ⟨"g2", [1, 2]⟩, 2)] ∧
    (∀ (members : List Nat) (args : List String) (r : List (Nat × GameStat × Nat)),
      games_cmd members args r = GamesReply.noCommon ↔
        games_filter members.length (games_tolerance args) r = []) := by
  refine ⟨rfl, fun e => ?_, by decide, fun members args r => ?_⟩
  · simp [games_filter, List.mem_filter]
  · by_cases hf : games_filter members.length (games_tolerance args) r = []
    · simp [games_cmd, hf]
    · have hne : (games_filter members.length (games_tolerance args) r).isEmpty = false := by
        simpa [List.isEmpty_iff] using hf
      simp [games_cmd, hne, hf]

/-- Concatenation distributes over list append. -/
theorem sjoin_append (l1 l2 : List String) : sjoin (l1 ++ l2) = sjoin l1 ++ sjoin l2 := by
  induction l1 with
  | nil => simp [sjoin, String.empty_append]
  | cons s rest ih => simp [sjoin, ih, String.append_assoc]

/-- Any run of the truncate_msg loop on lines that all fit the limit
together with their newline succeeds, yields only messages within the
limit, and concatenates to the flushed prefix, the accumulator and the
newline-terminated input lines, in order. -/
theorem truncate_go_ok (N : Nat) (lines : List String) :
    ∀ (msg : String) (out : List String),
      (∀ l ∈ lines, l.length + 1 ≤ N) → msg.length ≤ N → (∀ m ∈ out, m.length ≤ N) →
      ∃ msgs, truncate_go N lines msg out = Except.ok msgs ∧
        (∀ m ∈ msgs, m.length ≤ N) ∧
        sjoin msgs = sjoin out ++ msg ++ sjoin (lines.map (fun l => l ++ "\n")) := by
  induction lines with
  | nil =>
    intro msg out _ hmsg hout
    refine ⟨out ++ [msg], rfl, ?_, ?_⟩
    · intro m hm
      rcases List.mem_append.mp hm with h | h
      · exact hout m h
      · rcases List.mem_singleton.mp h with rfl
        exact hmsg
    · simp [sjoin_append, sjoin, String.append_empty]
  | cons line rest ih =>
    intro msg out hlines hmsg hout
    have hline : line.length + 1 ≤ N := hlines line (List.mem_cons_self line rest)
    have hrest : ∀ l ∈ rest, l.length + 1 ≤ N := fun l hl => hlines l (List.mem_cons_of_mem line hl)
    have hone : ("\n" : String).length = 1 := by decide
    have hnl : (line ++ "\n").length = line.length + 1 := by
      rw [String.length_append, hone]
    have hfit : ¬ N < (line ++ "\n").length := by omega
    have hstep : truncate_go N (line :: rest) msg out =
        if N < (line ++ "\n").length then Except.error "Line too large to truncate"
        else if (msg ++ line ++ "\n").length < N then truncate_go N rest (msg ++ line ++ "\n") out
        else truncate_go N rest (line ++ "\n") (out ++ [msg]) := rfl
    by_cases hacc : (msg ++ line ++ "\n").length < N
    · obtain ⟨msgs, hrun, hlen, hjoin⟩ :=
        ih (msg ++ line ++ "\n") out hrest (Nat.le_of_lt hacc) hout
      refine ⟨msgs, ?_, hlen, ?_⟩
      · rw [hstep, if_neg hfit, if_pos hacc]
        exact hrun
      · rw [hjoin]
        simp [sjoin, String.append_assoc]
    · have hout2 : ∀ m ∈ out ++ [msg], m.length ≤ N := by
        intro m hm
        rcases List.mem_append.mp hm with h | h
        · exact hout m h
        · rcases List.mem_singleton.mp h with rfl
          exact hmsg
      obtain ⟨msgs, hrun, hlen, hjoin⟩ :=
        ih (line ++ "\n") (out ++ [msg]) hrest (by omega) hout2
      refine ⟨msgs, ?_, hlen, ?_⟩
      · rw [hstep, if_neg hfit, if_neg hacc]
        exact hrun
      · rw [hjoin]
        simp [sjoin_append, sjoin, String.append_assoc, String.append_empty]

/-- Any run of the truncate_msg loop over lines one of which, with its
newline, exceeds the limit raises the line-too-large error. -/
theorem truncate_go_err (N : Nat) (lines : List String) :
    ∀ (msg : String) (out : List String) (l : String),
      l ∈ lines → N < l.length + 1 →
      truncate_go N lines msg out = Except.error "Line too large to truncate" := by
  induction lines with
  | nil => intro msg out l hl _; exact absurd hl (List.not_mem_nil l)
  | cons line rest ih =>
    intro msg out l hl hbig
    have hone : ("\n" : String).length = 1 := by decide
    have hnl : (line ++ "\n").length = line.length + 1 := by
      rw [String.length_append, hone]
    have hstep : truncate_go N (line :: rest) msg out =
        if N < (line ++ "\n").length then Except.error "Line too large to truncate"
        else if (msg ++ line ++ "\n").length < N then truncate_go N rest (msg ++ line ++ "\n") out
        else truncate_go N rest (line ++ "\n") (out ++ [msg]) := rfl
    by_cases hfirst : N < (line ++ "\n").length
    · rw [hstep, if_pos hfirst]
    · rcases List.mem_cons.mp hl with rfl | hl2
      · omega
      · rw [hstep, if_neg hfirst]
        by_cases hacc : (msg ++ line ++ "\n").length < N
        · rw [if_pos hacc]
          exact ih _ _ l hl2 hbig
        · rw [if_neg hacc]
          exact ih _ _ l hl2 hbig

/-- C8 counterexample: a line of exactly 4096 characters fits the
per-message ceiling of 4096, yet truncate_msg raises on it instead of
yielding messages. -/
theorem c8_counterexample :
    big_line.length ≤ 4096 ∧
    truncate_msg [big_line] 4096 = Except.error "Line too large to truncate" := by
  have h1 : big_line.length = (List.replicate 4096 (Char.ofNat 97)).length := rfl
  have hlen : big_line.length = 4096 := by
    rw [h1, List.length_replicate]
  constructor
  · omega
  · exact truncate_go_err 4096 [big_line] "" [] big_line (List.mem_singleton.mpr rfl) (by omega)

/-- C8 (amended): when every line with its trailing newline fits the 4096
ceiling, truncate_msg yields messages none of which exceeds the ceiling
whose concatenation is exactly the newline-terminated input lines in
order; and it raises whenever some line with its newline exceeds the
ceiling, which already happens for a line of exactly 4096 characters. -/
theorem c8_split_within_ceiling :
    (∀ lines : List String, (∀ l ∈ lines, l.length + 1 ≤ 4096) →
      ∃ msgs, truncate_msg lines 4096 = Except.ok msgs ∧
        (∀ m ∈ msgs, m.length ≤ 4096) ∧
        sjoin msgs = sjoin (lines.map (fun l => l ++ "\n"))) ∧
    (∀ (lines : List String) (l : String), l ∈ lines → 4096 ≤ l.length →
      truncate_msg lines 4096 = Except.error "Line too large to truncate") := by
  constructor
  · intro lines hlines
    obtain ⟨msgs, hrun, hlen, hjoin⟩ :=
      truncate_go_ok 4096 lines "" [] hlines (by decide) (by simp)
    refine ⟨msgs, hrun, hlen, ?_⟩
    rw [hjoin]
    simp [sjoin, String.empty_append]
  · intro lines l hl hbig
    exact truncate_go_err 4096 lines "" [] l hl (by omega)

/-- Invariant preservation: once both callers have probed and started
their own fetches, any further atomic segment keeps two started fetches
and each caller on its own fetch result. -/
theorem both_missed_step (f : Nat → Nat) (s : CacheSys) (i : Nat)
    (h : both_missed f s) : both_missed f (sys_step f s i) := by
  obtain ⟨hc, h0, h1⟩ := h
  by_cases hi : i = 0 <;>
    rcases h0 with h0 | h0 <;> rcases h1 with h1 | h1 <;>
      simp [both_missed, sys_step, caller_step, hi, h0, h1, hc]

/-- Invariant preservation along any schedule. -/
theorem both_missed_run (f : Nat → Nat) (s : CacheSys) (sched : List Nat)
    (h : both_missed f s) : both_missed f (sched.foldl (sys_step f) s) := by
  induction sched generalizing s with
  | nil => exact h
  | cons i rest ih => exact ih _ (both_missed_step f s i h)

/-- C1 counterexample: with both callers probing the empty cache before
either fetch returns (schedule caller 0 probes, caller 1 probes, caller 0
resumes, caller 1 resumes) and the nth fetch returning n, the wrapped
fetch function runs twice, not once, and the two callers receive the
distinct results of their own fetches. -/
theorem c1_counterexample :
    (sys_run (fun j => j) [0, 1, 0, 1]).fetchCount = 2 ∧
    (sys_run (fun j => j) [0, 1, 0, 1]).fetchCount ≠ 1 ∧
    (sys_run (fun j => j) [0, 1, 0, 1]).c0 = CallerState.done 1 ∧
    (sys_run (fun j => j) [0, 1, 0, 1]).c1 = CallerState.done 2 ∧
    (sys_run (fun j => j) [0, 1, 0, 1]).cache = some 2 ∧
    (1 : Nat) ≠ 2 := by decide

/-- C1 (amended): whenever the two concurrent callers both probe the empty
cache before any fetch result is available, each caller starts a fetch of
its own — the wrapped function runs exactly twice, whatever happens
afterwards — and each caller, once done, holds the result of its own
fetch, not of a shared single flight. -/
theorem c1_no_single_flight (f : Nat → Nat) (rest : List Nat) :
    both_missed f (sys_run f ([0, 1] ++ rest)) := by
  have h2 : sys_run f ([0, 1] ++ rest) = rest.foldl (sys_step f) (sys_run f [0, 1]) := by
    simp [sys_run, List.foldl_append]
  have hbase : both_missed f (sys_run f [0, 1]) := ⟨rfl, Or.inl rfl, Or.inl rfl⟩
  rw [h2]
  exact both_missed_run f (sys_run f [0, 1]) rest hbase

/-- C2 counterexample: a fetch that completes with a response carrying no
payload (the not-found outcome) is stored in the cache as the None marker,
and a later lookup for the same key returns the cached marker without a
fresh fetch, even though the external service would by then succeed. -/
theorem c2_counterexample :
    cachedasync_lookup none (Except.ok []) = (Except.ok none, some none, true) ∧
    some (none : Option GameInfo) ≠ none ∧
    cachedasync_lookup (some none)
        (Except.ok [("response", { games := [{ appid := 10, name := "A" }] })]) =
      (Except.ok none, some none, false) := by
  refine ⟨rfl, by decide, rfl⟩

/-- C2 (amended): when the external fetch raises, the error is surfaced,
nothing is stored, and any later lookup for the key fetches afresh; but a
fetch that completes with a response lacking the payload stores the None
marker in the cache, and every later lookup within the TTL returns the
cached value, the None marker included, without a fresh fetch. -/
theorem c2_only_raises_uncached :
    (∀ e : String, cachedasync_lookup none (Except.error e) = (Except.error e, none, true)) ∧
    (∀ apiCall : Except String (List (String × GameInfo)),
      (cachedasync_lookup none apiCall).2.2 = true) ∧
    (∀ resp : List (String × GameInfo), resp.find? (fun p => p.1 == "response") = none →
      cachedasync_lookup none (Except.ok resp) = (Except.ok none, some none, true)) ∧
    (∀ (v : Option GameInfo) (apiCall : Except String (List (String × GameInfo))),
      cachedasync_lookup (some v) apiCall = (Except.ok v, some v, false)) := by
  refine ⟨fun e => rfl, fun apiCall => ?_, fun resp h => ?_, fun v apiCall => rfl⟩
  · rcases ha : get_owned_games_uncached apiCall with e | v <;>
      simp [cachedasync_lookup, ha]
  · simp [cachedasync_lookup, get_owned_games_uncached, resp_get_response, h]

/-- Membership after a set add. -/
theorem mem_addOwner (os : List Nat) (m k : Nat) : k ∈ addOwner os m ↔ (k ∈ os ∨ k = m) := by
  by_cases h : m ∈ os
  · simp only [addOwner, if_pos h]
    constructor
    · exact fun hk => Or.inl hk
    · rintro (hk | rfl)
      · exact hk
      · exact h
  · simp [addOwner, if_neg h, List.mem_append]

/-- A set add keeps the owners list duplicate-free. -/
theorem nodup_addOwner (os : List Nat) (m : Nat) (h : os.Nodup) : (addOwner os m).Nodup := by
  by_cases hm : m ∈ os
  · simpa [addOwner, hm] using h
  · rw [addOwner, if_neg hm]
    exact (List.perm_append_singleton m os).nodup_iff.mpr (List.nodup_cons.mpr ⟨hm, h⟩)

/-- Membership in the accumulated owners. -/
theorem mem_owners_go (a k : Nat) (xs : List (Nat × Game)) :
    ∀ os, k ∈ owners_go a os xs ↔ (k ∈ os ∨ ∃ x ∈ xs, x.1 = k ∧ x.2.appid = a) := by
  induction xs with
  | nil => intro os; simp [owners_go]
  | cons x rest ih =>
    intro os
    have hstep : owners_go a os (x :: rest) =
        owners_go a (if x.2.appid = a then addOwner os x.1 else os) rest := rfl
    by_cases hx : x.2.appid = a
    · rw [hstep, if_pos hx, ih]
      simp only [mem_addOwner, List.mem_cons]
      constructor
      · rintro ((hk | rfl) | ⟨y, hy, h1, h2⟩)
        · exact Or.inl hk
        · exact Or.inr ⟨x, Or.inl rfl, rfl, hx⟩
        · exact Or.inr ⟨y, Or.inr hy, h1, h2⟩
      · rintro (hk | ⟨y, hy | hy, h1, h2⟩)
        · exact Or.inl (Or.inl hk)
        · subst hy
          exact Or.inl (Or.inr h1.symm)
        · exact Or.inr ⟨y, hy, h1, h2⟩
    · rw [hstep, if_neg hx, ih]
      constructor
      · rintro (hk | ⟨y, hy, h1, h2⟩)
        · exact Or.inl hk
        · exact Or.inr ⟨y, List.mem_cons_of_mem x hy, h1, h2⟩
      · rintro (hk | ⟨y, hy, h1, h2⟩)
        · exact Or.inl hk
        · rcases List.mem_cons.mp hy with rfl | hy2
          · exact absurd h2 hx
          · exact Or.inr ⟨y, hy2, h1, h2⟩

/-- The accumulated owners stay duplicate-free. -/
theorem nodup_owners_go (a : Nat) (xs : List (Nat × Game)) :
    ∀ os : List Nat, os.Nodup → (owners_go a os xs).Nodup := by
  induction xs with
  | nil => intro os h; simpa [owners_go] using h
  | cons x rest ih =>
    intro os h
    have hstep : owners_go a os (x :: rest) =
        owners_go a (if x.2.appid = a then addOwner os x.1 else os) rest := rfl
    rw [hstep]
    by_cases hx : x.2.appid = a
    · rw [if_pos hx]
      exact ih _ (nodup_addOwner os x.1 h)
    · rw [if_neg hx]
      exact ih _ h

/-- Accumulating over an append accumulates over the parts in order. -/
theorem owners_go_append (a : Nat) (xs ys : List (Nat × Game)) :
    ∀ os, owners_go a os (xs ++ ys) = owners_go a (owners_go a os xs) ys := by
  induction xs with
  | nil => intro os; rfl
  | cons x rest ih =>
    intro os
    simp only [List.cons_append]
    exact ih _

/-- A traversal without the appid accumulates nothing. -/
theorem owners_go_no_match (a : Nat) (xs : List (Nat × Game))
    (h : ∀ x ∈ xs, x.2.appid ≠ a) : ∀ os, owners_go a os xs = os := by
  induction xs with
  | nil => intro os; rfl
  | cons x rest ih =>
    intro os
    have hx : x.2.appid ≠ a := h x (List.mem_cons_self x rest)
    have hstep : owners_go a os (x :: rest) =
        owners_go a (if x.2.appid = a then addOwner os x.1 else os) rest := rfl
    rw [hstep, if_neg hx]
    exact ih (fun y hy => h y (List.mem_cons_of_mem x hy)) os

/-- First matching occurrence over an append. -/
theorem find_first_append (a : Nat) (xs ys : List (Nat × Game)) :
    find_first a (xs ++ ys) =
      match find_first a xs with
      | some x => some x
      | none => find_first a ys := by
  induction xs with
  | nil => rfl
  | cons x rest ih =>
    by_cases hx : x.2.appid = a <;> simp [find_first, hx, ih]

/-- No first occurrence means no occurrence at all. -/
theorem find_first_eq_none (a : Nat) (xs : List (Nat × Game)) :
    find_first a xs = none ↔ ∀ x ∈ xs, x.2.appid ≠ a := by
  induction xs with
  | nil => simp [find_first]
  | cons x rest ih =>
    by_cases hx : x.2.appid = a <;> simp [find_first, hx, ih]

/-- Lookup after one dictionary update of record_game: the updated appid
maps to a fresh singleton entry or its old entry with the member added, and
every other appid is untouched. -/
theorem dlookup_record_game (m : Nat) (g : Game) (d : List (Nat × GameStat)) (a : Nat) :
    dlookup a (record_game m g d) =
      if g.appid = a then
        match dlookup a d with
        | none => some { name := g.name, owners := [m] }
        | some st => some { name := st.name, owners := addOwner st.owners m }
      else dlookup a d := by
  induction d with
  | nil =>
    by_cases h : g.appid = a <;> simp [record_game, dlookup, h]
  | cons p rest ih =>
    obtain ⟨b, st⟩ := p
    by_cases hb : g.appid = b
    · subst hb
      by_cases ha : g.appid = a
      · subst ha
        simp [record_game, dlookup]
      · simp [record_game, dlookup, ha]
    · by_cases ha : b = a
      · subst ha
        simp [record_game, dlookup, hb]
      · simp [record_game, dlookup, hb, ha, ih]

/-- Keys after one dictionary update: unchanged for a known appid, the
appid appended otherwise. -/
theorem dkeys_record_game (m : Nat) (g : Game) (d : List (Nat × GameStat)) :
    dkeys (record_game m g d) =
      if g.appid ∈ dkeys d then dkeys d else dkeys d ++ [g.appid] := by
  induction d with
  | nil => simp [record_game, dkeys]
  | cons p rest ih =>
    obtain ⟨b, st⟩ := p
    by_cases hb : g.appid = b
    · subst hb
      have h1 : record_game m g ((g.appid, st) :: rest) =
          (g.appid, { name := st.name, owners := addOwner st.owners m }) :: rest := by
        simp [record_game]
      have h2 : g.appid ∈ dkeys ((g.appid, st) :: rest) := by simp [dkeys]
      rw [h1, if_pos h2]
      rfl
    · have h1 : record_game m g ((b, st) :: rest) = (b, st) :: record_game m g rest := by
        simp [record_game, hb]
      have h2 : dkeys ((b, st) :: record_game m g rest) = b :: dkeys (record_game m g rest) := rfl
      have h3 : dkeys ((b, st) :: rest) = b :: dkeys rest := rfl
      rw [h1, h2, h3, ih]
      by_cases hmem : g.appid ∈ dkeys rest
      · rw [if_pos hmem, if_pos (List.mem_cons_of_mem b hmem)]
      · have h4 : g.appid ∉ b :: dkeys rest := by
          intro hc
          rcases List.mem_cons.mp hc with hc1 | hc2
          · exact hb hc1
          · exact hmem hc2
        rw [if_neg hmem, if_neg h4, List.cons_append]

/-- One dictionary update keeps the keys duplicate-free. -/
theorem dkeys_nodup_record_game (m : Nat) (g : Game) (d : List (Nat × GameStat))
    (h : (dkeys d).Nodup) : (dkeys (record_game m g d)).Nodup := by
  rw [dkeys_record_game]
  by_cases hmem : g.appid ∈ dkeys d
  · simpa [hmem] using h
  · rw [if_neg hmem]
    exact (List.perm_append_singleton g.appid (dkeys d)).nodup_iff.mpr
      (List.nodup_cons.mpr ⟨hmem, h⟩)

/-- Lookup misses exactly the absent keys. -/
theorem dlookup_eq_none (a : Nat) (d : List (Nat × GameStat)) :
    dlookup a d = none ↔ a ∉ dkeys d := by
  induction d with
  | nil => simp [dlookup, dkeys]
  | cons p rest ih =>
    have hkeys : dkeys (p :: rest) = p.1 :: dkeys rest := rfl
    rw [hkeys]
    by_cases h : p.1 = a
    · subst h
      simp [dlookup]
    · simp only [dlookup, if_neg h]
      rw [ih]
      constructor
      · intro hna hc
        rcases List.mem_cons.mp hc with hc1 | hc2
        · exact h hc1.symm
        · exact hna hc2
      · intro hna hc
        exact hna (List.mem_cons_of_mem p.1 hc)

/-- With duplicate-free keys every stored entry is what lookup returns. -/
theorem dlookup_of_mem (d : List (Nat × GameStat)) :
    ∀ e : Nat × GameStat, (dkeys d).Nodup → e ∈ d → dlookup e.1 d = some e.2 := by
  induction d with
  | nil => intro e _ he; cases he
  | cons p rest ih =>
    intro e hn he
    have hkeys : dkeys (p :: rest) = p.1 :: dkeys rest := rfl
    rw [hkeys] at hn
    rcases List.mem_cons.mp he with rfl | hrest
    · simp [dlookup]
    · have hp : p.1 ∉ dkeys rest := (List.nodup_cons.mp hn).1
      have hne : p.1 ≠ e.1 := by
        intro hcontra
        apply hp
        rw [hcontra]
        exact List.mem_map_of_mem Prod.fst hrest
      simp only [dlookup, if_neg hne]
      exact ih e (List.nodup_cons.mp hn).2 hrest

/-- The intended dictionary content after one more traversal step changes
exactly like one record_game update. -/
theorem stat_spec_snoc (a : Nat) (xs : List (Nat × Game)) (x : Nat × Game) :
    stat_spec a (xs ++ [x]) =
      if x.2.appid = a then
        match stat_spec a xs with
        | none => some { name := x.2.name, owners := [x.1] }
        | some st => some { name := st.name, owners := addOwner st.owners x.1 }
      else stat_spec a xs := by
  have howners : owners_of a (xs ++ [x]) =
      if x.2.appid = a then addOwner (owners_of a xs) x.1 else owners_of a xs := by
    show owners_go a [] (xs ++ [x]) = _
    rw [owners_go_append]
    rfl
  by_cases hx : x.2.appid = a
  · rw [if_pos hx]
    rcases hf : find_first a xs with _ | y
    · have hnm : ∀ z ∈ xs, z.2.appid ≠ a := (find_first_eq_none a xs).mp hf
      have hf2 : find_first a (xs ++ [x]) = some x := by
        rw [find_first_append, hf]
        simp [find_first, hx]
      have ho : owners_of a xs = [] := owners_go_no_match a xs hnm []
      rw [stat_spec, hf2, stat_spec, hf, howners, if_pos hx, ho]
      simp [addOwner]
    · have hf2 : find_first a (xs ++ [x]) = some y := by
        rw [find_first_append, hf]
      rw [stat_spec, hf2, stat_spec, hf, howners, if_pos hx]
  · rw [if_neg hx]
    have hf2 : find_first a (xs ++ [x]) = find_first a xs := by
      rw [find_first_append]
      rcases hf : find_first a xs with _ | y
      · simp [find_first, hx]
      · rfl
    rw [stat_spec, stat_spec, hf2, howners, if_neg hx]

/-- One loop iteration preserves the dictionary invariant, extending the
traversal by its occurrence. -/
theorem stats_inv_step (xs : List (Nat × Game)) (d : List (Nat × GameStat)) (x : Nat × Game)
    (h : stats_inv xs d) : stats_inv (xs ++ [x]) (record_game x.1 x.2 d) := by
  obtain ⟨hn, hl⟩ := h
  refine ⟨dkeys_nodup_record_game x.1 x.2 d hn, fun a => ?_⟩
  rw [dlookup_record_game, stat_spec_snoc, hl a]

/-- The invariant holds along any run of the loops. -/
theorem stats_inv_fold (ys : List (Nat × Game)) :
    ∀ (xs : List (Nat × Game)) (d : List (Nat × GameStat)), stats_inv xs d →
      stats_inv (xs ++ ys) (ys.foldl (fun d2 x => record_game x.1 x.2 d2) d) := by
  induction ys with
  | nil => intro xs d h; simpa using h
  | cons y rest ih =>
    intro xs d h
    have h2 := ih (xs ++ [y]) (record_game y.1 y.2 d) (stats_inv_step xs d y h)
    rw [show xs ++ y :: rest = (xs ++ [y]) ++ rest by simp]
    exact h2

/-- The nested loops of generate_report equal one loop over the flattened
traversal. -/
theorem game_stats_eq_flat (pairs : List (Nat × List Game)) :
    game_stats pairs = (flat_pairs pairs).foldl (fun d x => record_game x.1 x.2 d) [] := by
  suffices h : ∀ d, pairs.foldl (fun d2 p => p.2.foldl (fun d3 g => record_game p.1 g d3) d2) d =
      (flat_pairs pairs).foldl (fun d2 x => record_game x.1 x.2 d2) d from h []
  induction pairs with
  | nil => intro d; rfl
  | cons p rest ih =>
    intro d
    have h1 : flat_pairs (p :: rest) = p.2.map (fun g => (p.1, g)) ++ flat_pairs rest := rfl
    rw [h1, List.foldl_cons, List.foldl_append, List.foldl_map, ih]

/-- The dictionary built by generate_report satisfies the invariant for the
whole traversal. -/
theorem game_stats_spec (pairs : List (Nat × List Game)) :
    stats_inv (flat_pairs pairs) (game_stats pairs) := by
  have h0 : stats_inv [] [] := ⟨List.nodup_nil, fun a => rfl⟩
  have h1 := stats_inv_fold (flat_pairs pairs) [] [] h0
  rw [game_stats_eq_flat]
  simpa using h1

/-- Membership in the flattened traversal. -/
theorem mem_flat_pairs (x : Nat × Game) (pairs : List (Nat × List Game)) :
    x ∈ flat_pairs pairs ↔ ∃ p ∈ pairs, ∃ g ∈ p.2, x = (p.1, g) := by
  induction pairs with
  | nil => simp [flat_pairs]
  | cons p rest ih =>
    have h1 : flat_pairs (p :: rest) = p.2.map (fun g => (p.1, g)) ++ flat_pairs rest := rfl
    rw [h1]
    simp only [List.mem_append, List.mem_map, ih, List.mem_cons]
    constructor
    · rintro (⟨g, hg, rfl⟩ | ⟨q, hq, g, hg, rfl⟩)
      · exact ⟨p, Or.inl rfl, g, hg, rfl⟩
      · exact ⟨q, Or.inr hq, g, hg, rfl⟩
    · rintro ⟨q, hq | hq, g, hg, rfl⟩
      · subst hq
        exact Or.inl ⟨g, hg, rfl⟩
      · exact Or.inr ⟨q, hq, g, hg, rfl⟩

/-- Existence over the flattened traversal is existence over members and
their games. -/
theorem exists_flat_iff (pairs : List (Nat × List Game)) (P : Nat × Game → Prop) :
    (∃ x ∈ flat_pairs pairs, P x) ↔ ∃ p ∈ pairs, ∃ g ∈ p.2, P (p.1, g) := by
  constructor
  · rintro ⟨x, hx, hP⟩
    obtain ⟨p, hp, g, hg, rfl⟩ := (mem_flat_pairs x pairs).mp hx
    exact ⟨p, hp, g, hg, hP⟩
  · rintro ⟨p, hp, g, hg, hP⟩
    exact ⟨(p.1, g), (mem_flat_pairs _ _).mpr ⟨p, hp, g, hg, rfl⟩, hP⟩

/-- The intended dictionary content is absent exactly when the appid never
occurs. -/
theorem stat_spec_eq_none (a : Nat) (xs : List (Nat × Game)) :
    stat_spec a xs = none ↔ find_first a xs = none := by
  rcases hf : find_first a xs with _ | y <;> simp [stat_spec, hf]

/-- Every row of the sorted report names an appid whose first traversal
occurrence exists, carries that occurrence name with the accumulated
owners, and counts the owners. -/
theorem report_entry_spec (pairs : List (Nat × List Game)) :
    ∀ e ∈ report_of pairs,
      ∃ x, find_first e.1 (flat_pairs pairs) = some x ∧
        e.2.1 = { name := x.2.name, owners := owners_of e.1 (flat_pairs pairs) } ∧
        e.2.2 = e.2.1.owners.length := by
  intro e he
  obtain ⟨hnodup, hl⟩ := game_stats_spec pairs
  have hperm : (report_of pairs).Perm
      ((game_stats pairs).map (fun p => (p.1, p.2, p.2.owners.length))) :=
    List.perm_insertionSort countGE _
  obtain ⟨s, hs, rfl⟩ := List.mem_map.mp (hperm.mem_iff.mp he)
  have hls : dlookup s.1 (game_stats pairs) = some s.2 :=
    dlookup_of_mem (game_stats pairs) s hnodup hs
  rw [hl s.1] at hls
  rcases hf : find_first s.1 (flat_pairs pairs) with _ | x
  · simp only [stat_spec, hf] at hls
    exact Option.noConfusion hls
  · simp only [stat_spec, hf, Option.some.injEq] at hls
    exact ⟨x, rfl, hls.symm, rfl⟩

/-- Appids present in one report are the appids present in the dictionary
keys. -/
theorem report_keys_perm (pairs : List (Nat × List Game)) :
    ((report_of pairs).map (fun e => e.1)).Perm (dkeys (game_stats pairs)) := by
  have hperm : (report_of pairs).Perm
      ((game_stats pairs).map (fun p => (p.1, p.2, p.2.owners.length))) :=
    List.perm_insertionSort countGE _
  have h2 := hperm.map (fun e => e.1)
  have h3 : ((game_stats pairs).map (fun p => (p.1, p.2, p.2.owners.length))).map
      (fun e => e.1) = dkeys (game_stats pairs) := by
    simp [dkeys, List.map_map, Function.comp]
  rw [h3] at h2
  exact h2

/-- A dictionary key is an appid occurring in the traversal. -/
theorem mem_dkeys_iff_occurs (pairs : List (Nat × List Game)) (a : Nat) :
    a ∈ dkeys (game_stats pairs) ↔ ∃ x ∈ flat_pairs pairs, x.2.appid = a := by
  obtain ⟨hnodup, hl⟩ := game_stats_spec pairs
  constructor
  · intro hmem
    by_contra hno
    push_neg at hno
    have h1 : find_first a (flat_pairs pairs) = none := (find_first_eq_none _ _).mpr hno
    have h2 : dlookup a (game_stats pairs) = none := by
      rw [hl a]
      exact (stat_spec_eq_none _ _).mpr h1
    exact (dlookup_eq_none a _).mp h2 hmem
  · rintro ⟨x, hx, hax⟩
    by_contra hno
    have h2 : dlookup a (game_stats pairs) = none := (dlookup_eq_none a _).mpr hno
    rw [hl a] at h2
    exact (find_first_eq_none _ _).mp ((stat_spec_eq_none _ _).mp h2) x hx hax

/-- C6: for every assignment of owned-game lists to members, the report has
duplicate-free appids, one row per appid owned by at least one member; each
row counts a duplicate-free owners set holding exactly the members owning
the appid; each row carries the display name of the first traversal
occurrence of its appid; the report is sorted by owner count descending;
and on the spec example with member 1 owning item1 and item2 and member 2
owning item2, item2 with owners 1 and 2 precedes item1 with owner 1. -/
theorem c6_aggregate_report (pairs : List (Nat × List Game)) :
    ((report_of pairs).map (fun e => e.1)).Nodup ∧
    (∀ a : Nat, (∃ e ∈ report_of pairs, e.1 = a) ↔ ∃ p ∈ pairs, ∃ g ∈ p.2, g.appid = a) ∧
    (∀ e ∈ report_of pairs,
      e.2.2 = e.2.1.owners.length ∧ e.2.1.owners.Nodup ∧
      (∀ m : Nat, m ∈ e.2.1.owners ↔ ∃ p ∈ pairs, p.1 = m ∧ ∃ g ∈ p.2, g.appid = e.1)) ∧
    (∀ e ∈ report_of pairs,
      (find_first e.1 (flat_pairs pairs)).map (fun x => x.2.name) = some e.2.1.name) ∧
    List.Pairwise (fun x y => y.2.2 ≤ x.2.2) (report_of pairs) ∧
    report_of [(1, [⟨100, "item1"⟩, ⟨200, "item2"⟩]), (2, [⟨200, "item2"⟩])] =
      [(200, { name := "item2", owners := [1, 2] }, 2),
        (100, { name := "item1", owners := [1] }, 1)] := by
  obtain ⟨hnodup, hl⟩ := game_stats_spec pairs
  have hperm : (report_of pairs).Perm
      ((game_stats pairs).map (fun p => (p.1, p.2, p.2.owners.length))) :=
    List.perm_insertionSort countGE _
  refine ⟨?_, ?_, ?_, ?_, ?_, by decide⟩
  · exact (report_keys_perm pairs).nodup_iff.mpr hnodup
  · intro a
    have h1 : (∃ e ∈ report_of pairs, e.1 = a) ↔ a ∈ (report_of pairs).map (fun e => e.1) := by
      simp [List.mem_map]
    have h2 : a ∈ (report_of pairs).map (fun e => e.1) ↔ a ∈ dkeys (game_stats pairs) :=
      (report_keys_perm pairs).mem_iff
    rw [h1, h2, mem_dkeys_iff_occurs]
    exact exists_flat_iff pairs (fun x => x.2.appid = a)
  · intro e he
    obtain ⟨x, hf, hst, hcnt⟩ := report_entry_spec pairs e he
    refine ⟨hcnt, ?_, ?_⟩
    · rw [hst]
      exact nodup_owners_go e.1 (flat_pairs pairs) [] List.nodup_nil
    · intro m
      rw [hst]
      have h1 := mem_owners_go e.1 m (flat_pairs pairs) []
      have h2 : (m ∈ owners_of e.1 (flat_pairs pairs)) ↔
          ∃ x ∈ flat_pairs pairs, x.1 = m ∧ x.2.appid = e.1 := by
        rw [owners_of, h1]
        simp
      have h3 := exists_flat_iff pairs (fun x => x.1 = m ∧ x.2.appid = e.1)
      show m ∈ owners_of e.1 (flat_pairs pairs) ↔ _
      rw [h2, h3]
      constructor
      · rintro ⟨p, hp, g, hg, hm, ha⟩
        exact ⟨p, hp, hm, g, hg, ha⟩
      · rintro ⟨p, hp, hm, g, hg, ha⟩
        exact ⟨p, hp, g, hg, hm, ha⟩
  · intro e he
    obtain ⟨x, hf, hst, _⟩ := report_entry_spec pairs e he
    rw [hf, hst]
    rfl
  · have hsort := List.sorted_insertionSort countGE
      ((game_stats pairs).map (fun p => (p.1, p.2, p.2.owners.length)))
    exact hsort

/-- C3: generate_report on a single registered member with an empty games
payload succeeds with an empty report, but a member whose owned-games
lookup produced the None marker (an unregistered member whose None steam
id the API rejects, or any member whose cached lookup stored the error
marker) makes the whole computation abort with the AttributeError instead
of contributing zero ownerships. -/
theorem c3_none_payload_aborts_report :
    generate_report regDb1 fetch_strict [1] = Except.ok [] ∧
    generate_report regDb1 fetch_strict [1, 2] =
      Except.error "AttributeError: NoneType object has no attribute get" ∧
    generate_report regDb1 (fun _ => none) [1] =
      Except.error "AttributeError: NoneType object has no attribute get" :=
  ⟨rfl, rfl, rfl⟩

end SteamPartyBot
